import Mathlib

set_option maxRecDepth 10000

/-!
Verification of the SVG-to-drawio icon library builder.

Shallow embedding conventions used throughout this file:
* Text is modelled as `List Char`; byte strings as `List Nat` with every
  element below 256.
* Directory paths are modelled as lists of path components relative to the
  extracted icons directory (`DirPath` below); the filesystem tree seen by
  the fetchers is derived from the list of SVG file paths, so a directory
  exists exactly when some SVG file lies beneath it.
* Python `set` values are modelled as deduplicated lists; where the source
  draws an arbitrary element from a set, the embedding draws the head of
  the deduplicated list.
* `zlib.compress` is an external library; it is modelled by its documented
  output format: a 2-byte header, a raw-deflate body, and a 4-byte adler32
  trailer, with the raw body recoverable by a raw inflate.  The theorems
  about `compress_and_encode` are parameterised over any compressor of
  this shape; a concrete single-stored-block deflate instantiates them.
* Python floats: the scaler's `max_size / max(w, h)` and `w * scale` run
  in IEEE binary64 ("double") arithmetic.  `Fp64`, `flFrac` and `flMulF`
  below implement binary64 round-to-nearest-even exactly, over
  natural-number arithmetic, with an unbounded exponent: the model
  coincides with IEEE doubles throughout the normal range, which the size
  hypotheses of the theorems ensure (Python's `OverflowError` territory
  lies outside those hypotheses).
-/

/-! ### Base64 (Python `base64.b64encode` / its inverse) -/

/-- The standard base64 alphabet, as used by Python `base64.b64encode`. -/
def b64chars : List Char :=
  "ABCDEFGHIJKLMNOPQRSTUVWXYZabcdefghijklmnopqrstuvwxyz0123456789+/".toList

/-- Character for a 6-bit group. -/
def b64char (k : Nat) : Char := b64chars.getD k 'A'

/-- 6-bit value of an alphabet character. -/
def b64val (c : Char) : Nat := b64chars.indexOf c

/-- Base64 encoding of a byte list, with `=` padding, exactly as
`base64.b64encode` produces it. -/
def b64encode : List Nat → List Char
  | [] => []
  | [a] => [b64char (a / 4), b64char (a % 4 * 16), '=', '=']
  | [a, b] => [b64char (a / 4), b64char (a % 4 * 16 + b / 16), b64char (b % 16 * 4), '=']
  | a :: b :: c :: rest =>
      b64char (a / 4) :: b64char (a % 4 * 16 + b / 16) ::
      b64char (b % 16 * 4 + c / 64) :: b64char (c % 64) :: b64encode rest

/-- Base64 decoding (the `decode` direction of the claimed round trip). -/
def b64decode : List Char → List Nat
  | c1 :: c2 :: c3 :: c4 :: rest =>
      if c3 = '=' then [b64val c1 * 4 + b64val c2 / 16]
      else if c4 = '=' then
        [b64val c1 * 4 + b64val c2 / 16, b64val c2 % 16 * 16 + b64val c3 / 4]
      else
        (b64val c1 * 4 + b64val c2 / 16) :: (b64val c2 % 16 * 16 + b64val c3 / 4) ::
        (b64val c3 % 4 * 64 + b64val c4) :: b64decode rest
  | _ => []

theorem b64val_b64char : ∀ k, k < 64 → b64val (b64char k) = k := by decide

theorem b64char_ne_pad : ∀ k, k < 64 → b64char k ≠ '=' := by decide

theorem div16_mul_add : ∀ x y : Nat, y < 16 → (x * 16 + y) / 16 = x := by
  intro x y h; omega

theorem mod16_mul_add : ∀ x y : Nat, y < 16 → (x * 16 + y) % 16 = y := by
  intro x y h; omega

theorem div4_mul_add : ∀ x y : Nat, y < 4 → (x * 4 + y) / 4 = x := by
  intro x y h; omega

theorem mod4_mul_add : ∀ x y : Nat, y < 4 → (x * 4 + y) % 4 = y := by
  intro x y h; omega

theorem div16_mul : ∀ x : Nat, x * 16 / 16 = x := by
  intro x; omega

theorem b64_roundtrip : ∀ bs : List Nat, (∀ x ∈ bs, x < 256) →
    b64decode (b64encode bs) = bs := by
  intro bs
  induction bs using b64encode.induct with
  | case1 =>
      intro _; rfl
  | case2 a =>
      intro h
      have ha : a < 256 := h a (by simp)
      have h1 : a / 4 < 64 := by omega
      have h2 : a % 4 * 16 < 64 := by omega
      have v1 : b64val (b64char (a / 4)) * 4 + b64val (b64char (a % 4 * 16)) / 16 = a := by
        rw [b64val_b64char _ h1, b64val_b64char _ h2, div16_mul]
        omega
      simp only [b64encode, b64decode, v1]
      simp
  | case3 a b =>
      intro h
      have ha : a < 256 := h a (by simp)
      have hb : b < 256 := h b (by simp)
      have h1 : a / 4 < 64 := by omega
      have h2 : a % 4 * 16 + b / 16 < 64 := by omega
      have h3 : b % 16 * 4 < 64 := by omega
      have v1 : b64val (b64char (a / 4)) * 4 +
          b64val (b64char (a % 4 * 16 + b / 16)) / 16 = a := by
        rw [b64val_b64char _ h1, b64val_b64char _ h2, div16_mul_add _ _ (by omega)]
        omega
      have v2 : b64val (b64char (a % 4 * 16 + b / 16)) % 16 * 16 +
          b64val (b64char (b % 16 * 4)) / 4 = b := by
        rw [b64val_b64char _ h2, b64val_b64char _ h3, mod16_mul_add _ _ (by omega)]
        omega
      simp only [b64encode, b64decode, if_neg (b64char_ne_pad _ h3), v1, v2]
      simp
  | case4 a b c rest ih =>
      intro h
      have ha : a < 256 := h a (by simp)
      have hb : b < 256 := h b (by simp)
      have hc : c < 256 := h c (by simp)
      have h1 : a / 4 < 64 := by omega
      have h2 : a % 4 * 16 + b / 16 < 64 := by omega
      have h3 : b % 16 * 4 + c / 64 < 64 := by omega
      have h4 : c % 64 < 64 := by omega
      have hrest : ∀ x ∈ rest, x < 256 := fun x hx => h x (by simp [hx])
      have v1 : b64val (b64char (a / 4)) * 4 +
          b64val (b64char (a % 4 * 16 + b / 16)) / 16 = a := by
        rw [b64val_b64char _ h1, b64val_b64char _ h2, div16_mul_add _ _ (by omega)]
        omega
      have v2 : b64val (b64char (a % 4 * 16 + b / 16)) % 16 * 16 +
          b64val (b64char (b % 16 * 4 + c / 64)) / 4 = b := by
        rw [b64val_b64char _ h2, b64val_b64char _ h3, mod16_mul_add _ _ (by omega),
          div4_mul_add _ _ (by omega)]
        omega
      have v3 : b64val (b64char (b % 16 * 4 + c / 64)) % 4 * 64 +
          b64val (b64char (c % 64)) = c := by
        rw [b64val_b64char _ h3, b64val_b64char _ h4, mod4_mul_add _ _ (by omega)]
        omega
      simp only [b64encode, b64decode, if_neg (b64char_ne_pad _ h3),
        if_neg (b64char_ne_pad _ h4), v1, v2, v3, ih hrest]

/-! ### The blob codec (`compress_and_encode`, svg_to_drawio.py lines 77-91) -/

/-- Python slice `l[2:-4]`. -/
def pySlice2Neg4 {α : Type} (l : List α) : List α :=
  (l.drop 2).take ((l.drop 2).length - 4)

theorem pySlice2Neg4_append (header body trailer : List Nat)
    (hH : header.length = 2) (hT : trailer.length = 4) :
    pySlice2Neg4 (header ++ body ++ trailer) = body := by
  unfold pySlice2Neg4
  rw [List.append_assoc, ← hH, List.drop_left]
  simp [hT]

/-- `compress_and_encode` from `src/converters/svg_to_drawio.py`:
`base64.b64encode(zlib.compress(xml_content.encode('utf-8'), level=9)[2:-4])`.
The external `zlib.compress` is passed in as a parameter; `xml_content` is
given as its UTF-8 byte list. -/
def compress_and_encode (zlibCompress : List Nat → List Nat)
    (xml_content : List Nat) : List Char :=
  b64encode (pySlice2Neg4 (zlibCompress xml_content))

/-- Claim C1: round-trip of the blob codec.  For every template byte text T,
base64-decoding the output of `compress_and_encode` and raw-inflating the
resulting stream reproduces T exactly, whenever the compressor has the zlib
shape (2-byte header, raw deflate body, 4-byte adler32 trailer) and the raw
inflate inverts the raw deflate on T. -/
theorem compress_and_encode_roundtrip
    (zlibCompress deflateRaw inflateRaw : List Nat → List Nat)
    (header trailer T : List Nat)
    (hZ : zlibCompress T = header ++ deflateRaw T ++ trailer)
    (hH : header.length = 2) (hT : trailer.length = 4)
    (hB : ∀ x ∈ deflateRaw T, x < 256)
    (hRT : inflateRaw (deflateRaw T) = T) :
    inflateRaw (b64decode (compress_and_encode zlibCompress T)) = T := by
  unfold compress_and_encode
  rw [hZ, pySlice2Neg4_append _ _ _ hH hT, b64_roundtrip _ hB, hRT]

/-- A raw deflate stream consisting of one stored (uncompressed) block:
byte 0x01 (BFINAL=1, BTYPE=00), LEN little-endian, NLEN = ones complement,
then the raw data.  Valid for inputs of at most 65535 bytes; used to
instantiate the round-trip theorem on concrete inputs. -/
def storedDeflate (bs : List Nat) : List Nat :=
  1 :: bs.length % 256 :: bs.length / 256 % 256 ::
  (255 - bs.length % 256) :: (255 - bs.length / 256 % 256) :: bs

/-- Raw inflate for a single stored block. -/
def storedInflate (l : List Nat) : List Nat :=
  match l with
  | b :: l1 :: l2 :: n1 :: n2 :: rest =>
      if b = 1 ∧ n1 = 255 - l1 ∧ n2 = 255 - l2 then rest.take (l1 + 256 * l2) else []
  | _ => []

/-- The zlib adler32 checksum of a byte list, as four big-endian bytes. -/
def adler32bytes (bs : List Nat) : List Nat :=
  let ab := bs.foldl (fun p x => ((p.1 + x) % 65521, (p.2 + (p.1 + x)) % 65521)) (1, 0)
  let A := ab.2 * 65536 + ab.1
  [A / 16777216 % 256, A / 65536 % 256, A / 256 % 256, A % 256]

/-- A concrete compressor of the zlib shape: header 0x78 0xDA (deflate,
level 9), a stored-block raw body, and the adler32 trailer. -/
def zlibStored (bs : List Nat) : List Nat :=
  [120, 218] ++ storedDeflate bs ++ adler32bytes bs

/-- UTF-8 bytes of a small template text containing non-ASCII characters. -/
def sampleTemplateBytes : List Nat :=
  [60, 115, 118, 103, 62, 195, 169, 60, 47, 115, 118, 103, 62]

theorem compress_and_encode_roundtrip_witness :
    storedInflate (b64decode (compress_and_encode zlibStored sampleTemplateBytes)) =
      sampleTemplateBytes :=
  compress_and_encode_roundtrip zlibStored storedDeflate storedInflate
    [120, 218] (adler32bytes sampleTemplateBytes) sampleTemplateBytes
    rfl (by decide) (by decide) (by decide) (by decide)

/-! ### Dimension extractor (`get_svg_dimensions`, svg_to_drawio.py lines 17-42) -/

/-- Python `re.sub(r'[^0-9.]', '', s)`: keep only digits and dots. -/
def stripNonNumeric (s : List Char) : List Char :=
  s.filter (fun c => c.isDigit ∨ c = '.')

/-- Value of a list of decimal digits. -/
def digitsToNat (s : List Char) : Nat :=
  s.foldl (fun acc c => acc * 10 + (c.toNat - 48)) 0

/-- `int(float(t))` on a string of digits and dots, Python semantics:
`float` fails ("ValueError") unless the text has at least one digit and at
most one dot; the truncated value of `intpart.fracpart` is the integer part.
Numeric conversion is modelled exactly rather than with IEEE floats. -/
def pyFloatTrunc (t : List Char) : Option Nat :=
  if t.count '.' ≤ 1 ∧ t.any Char.isDigit then
    some (digitsToNat (t.takeWhile (fun c => ¬ c = '.')))
  else none

/-- `int(float(re.sub(r'[^0-9.]', '', s) or 48))`: an attribute string is
filtered to digits and dots; an empty filtrate falls back to 48; `none`
models a raised `ValueError`. -/
def parseDim (s : List Char) : Option Nat :=
  let t := stripNonNumeric s
  if t = [] then some 48 else pyFloatTrunc t

/-- `root.get(key, '48')` over the parsed attribute list. -/
def pyGetAttr (attrs : List (List Char × List Char)) (key : List Char) : List Char :=
  (attrs.lookup key).getD "48".toList

/-- `get_svg_dimensions` from `src/converters/svg_to_drawio.py`.  The
external XML parser (`xml.etree.ElementTree.fromstring`, after the
XML-declaration strip) is abstracted as the input: `none` models a parse
exception, `some attrs` the root element's attribute list.  Everything
after the parse — per-attribute default `'48'`, digit/dot filtering,
numeric conversion, and the catch-all `except` returning `(48, 48)` —
is the repository's own code and is embedded here. -/
def get_svg_dimensions (parsed : Option (List (List Char × List Char))) : Nat × Nat :=
  match parsed with
  | none => (48, 48)
  | some attrs =>
      match parseDim (pyGetAttr attrs "width".toList),
            parseDim (pyGetAttr attrs "height".toList) with
      | some w, some h => (w, h)
      | _, _ => (48, 48)

/-! ### Scaler (`create_library_entry` branch, svg_to_drawio.py lines 113-117)

The source computes `scale = max_size / max(width, height)` and
`int(width * scale)` in IEEE binary64 ("double") arithmetic.  The model
below implements binary64 round-to-nearest-even exactly, over pairs
mantissa/exponent, using only natural-number arithmetic so that it
evaluates inside the kernel.  At `(w, h, max_size) = (3920, 49, 80)` the
double computation yields `int(49 * (80/3920)) = int(0.9999999999999999)
= 0` where exact arithmetic would give 1; the model reproduces this. -/

/-- Fuel-bounded floor of log2 (structural recursion, so it reduces in the
kernel; `floorLog2 n` calls it with fuel `n`). -/
def nlog2 : Nat → Nat → Nat
  | 0, _ => 0
  | fuel + 1, n => if n ≤ 1 then 0 else nlog2 fuel (n / 2) + 1

/-- Floor of the base-2 logarithm of a positive natural number. -/
def floorLog2 (n : Nat) : Nat := nlog2 n n

/-- Round-to-nearest, ties to even, of the fraction `num / den` to a
natural number: the rounding IEEE 754 prescribes for the mantissa. -/
def rdiv (num den : Nat) : Nat :=
  let q := num / den
  let r := num % den
  if 2 * r < den then q else if den < 2 * r then q + 1 else if q % 2 = 0 then q else q + 1

/-- Floor of log2 of the positive fraction `num / den`: the binary64
exponent of its leading bit. -/
def qfloorLog2 (num den : Nat) : Int :=
  let a := floorLog2 num
  let b := floorLog2 den
  if den * 2 ^ (a + 1) ≤ num * 2 ^ (b + 1) then (a : Int) - b else (a : Int) - b - 1

/-- A model binary64 value `m * 2 ^ e` (mantissa and exponent).  The
exponent is unbounded: the model agrees with IEEE doubles wherever the
value lies in the normal range. -/
structure Fp64 where
  m : Nat
  e : Int
deriving DecidableEq, Repr

/-- The correctly rounded (round-to-nearest, ties-to-even, 53-bit
significand) double of the fraction `num / den`: exactly what CPython's
`int.__truediv__` and int-to-float conversion produce in the normal
range. -/
def flFrac (num den : Nat) : Fp64 :=
  if num = 0 ∨ den = 0 then ⟨0, 0⟩
  else
    let e := qfloorLog2 num den
    let mant := if e ≤ 52 then rdiv (num * 2 ^ (52 - e).toNat) den
                else rdiv num (den * 2 ^ (e - 52).toNat)
    ⟨mant, e - 52⟩

/-- IEEE binary64 multiplication of two model floats: the exact product,
correctly rounded. -/
def flMulF (f g : Fp64) : Fp64 :=
  if f.m = 0 ∨ g.m = 0 then ⟨0, 0⟩
  else
    let e := f.e + g.e
    if 0 ≤ e then flFrac (f.m * g.m * 2 ^ e.toNat) 1
    else flFrac (f.m * g.m) (2 ^ (-e).toNat)

/-- Python `int()` of a nonnegative model float: truncation. -/
def floorF (f : Fp64) : Nat :=
  if 0 ≤ f.e then f.m * 2 ^ f.e.toNat else f.m / 2 ^ (-f.e).toNat

/-- One dimension of the scaling branch: `int(float(x) * scale)` where
`scale = max_size / M` is the rounded double quotient. -/
def scaledDim (x m M : Nat) : Nat := floorF (flMulF (flFrac x 1) (flFrac m M))

/-- The scaling branch of `create_library_entry`
(svg_to_drawio.py lines 113-117):
`if width > max_size or height > max_size: scale = max_size / max(width,
height); width = int(width * scale); height = int(height * scale)`,
with the division and multiplications in IEEE binary64 as in Python. -/
def scaleDims (w h max_size : Nat) : Nat × Nat :=
  if max_size < w ∨ max_size < h then
    (scaledDim w max_size (max w h), scaledDim h max_size (max w h))
  else (w, h)

/-- Rational value of a model float (used only in proofs). -/
def valF (f : Fp64) : ℚ := (f.m : ℚ) * (2 : ℚ) ^ f.e

/-- Half an ulp at 1: the relative error bound of one binary64 rounding,
`2 ^ (-53)`. -/
def fpEps : ℚ := 1 / 9007199254740992

theorem nlog2_spec : ∀ fuel n, 0 < n → n ≤ fuel →
    2 ^ nlog2 fuel n ≤ n ∧ n < 2 ^ (nlog2 fuel n + 1) := by
  intro fuel
  induction fuel with
  | zero => intro n h1 h2; omega
  | succ f ih =>
      intro n h1 h2
      unfold nlog2
      by_cases hn : n ≤ 1
      · rw [if_pos hn]
        constructor
        · simpa using h1
        · simp
          omega
      · rw [if_neg hn]
        obtain ⟨ha, hb⟩ := ih (n / 2) (by omega) (by omega)
        constructor
        · have : 2 ^ (nlog2 f (n / 2) + 1) = 2 * 2 ^ nlog2 f (n / 2) := by ring
          omega
        · have : 2 ^ (nlog2 f (n / 2) + 1 + 1) = 2 * 2 ^ (nlog2 f (n / 2) + 1) := by ring
          omega

theorem floorLog2_spec (n : Nat) (hn : 0 < n) :
    2 ^ floorLog2 n ≤ n ∧ n < 2 ^ (floorLog2 n + 1) := nlog2_spec n n hn le_rfl

theorem rdiv_le_spec (num den : Nat) (hden : 0 < den) :
    2 * num ≤ 2 * rdiv num den * den + den ∧ 2 * rdiv num den * den ≤ 2 * num + den := by
  unfold rdiv
  set q := num / den with hq
  set r := num % den with hr
  have key : 2 * q * den + 2 * r = 2 * num := by
    conv_rhs => rw [← Nat.div_add_mod' num den, ← hq, ← hr]
    ring
  have hml : r < den := hr ▸ Nat.mod_lt _ hden
  have expand : 2 * (q + 1) * den = 2 * q * den + 2 * den := by ring
  by_cases h1 : 2 * r < den
  · rw [if_pos h1]
    constructor <;> linarith
  · rw [if_neg h1]
    by_cases h2 : den < 2 * r
    · rw [if_pos h2]
      constructor <;> linarith
    · rw [if_neg h2]
      by_cases h3 : q % 2 = 0
      · rw [if_pos h3]
        constructor <;> linarith
      · rw [if_neg h3]
        constructor <;> linarith

theorem rdiv_one (a : Nat) : rdiv a 1 = a := by
  unfold rdiv
  have h : a % 1 = 0 := Nat.mod_one a
  rw [h]
  norm_num

theorem rdiv_bounds (num den : Nat) (hden : 0 < den) :
    (num : ℚ) / den - 1 / 2 ≤ (rdiv num den : ℚ) ∧
    (rdiv num den : ℚ) ≤ (num : ℚ) / den + 1 / 2 := by
  obtain ⟨h1, h2⟩ := rdiv_le_spec num den hden
  have hdQ : (0 : ℚ) < den := by exact_mod_cast hden
  have h1Q : 2 * (num : ℚ) ≤ 2 * (rdiv num den : ℚ) * den + den := by exact_mod_cast h1
  have h2Q : 2 * (rdiv num den : ℚ) * den ≤ 2 * (num : ℚ) + den := by exact_mod_cast h2
  constructor
  · rw [sub_le_iff_le_add, div_le_iff₀ hdQ]
    linarith
  · have heq : (num : ℚ) / den + 1 / 2 = (2 * num + den) / (2 * den) := by
      field_simp
      ring
    rw [heq, le_div_iff₀ (by positivity)]
    linarith

theorem qfloorLog2_bracket (num den : Nat) (hnum : 0 < num) (hden : 0 < den) :
    (2 : ℚ) ^ qfloorLog2 num den * den ≤ num ∧
    (num : ℚ) < (2 : ℚ) ^ (qfloorLog2 num den + 1) * den := by
  obtain ⟨ha1, ha2⟩ := floorLog2_spec num hnum
  obtain ⟨hb1, hb2⟩ := floorLog2_spec den hden
  unfold qfloorLog2
  set a := floorLog2 num with hadef
  set b := floorLog2 den with hbdef
  have h2ne : (2 : ℚ) ≠ 0 := by norm_num
  have ha1Q : (2 : ℚ) ^ a ≤ num := by exact_mod_cast ha1
  have ha2Q : (num : ℚ) < 2 ^ (a + 1) := by exact_mod_cast ha2
  have hb1Q : (2 : ℚ) ^ b ≤ den := by exact_mod_cast hb1
  have hb2Q : (den : ℚ) < 2 ^ (b + 1) := by exact_mod_cast hb2
  have hbpos : (0 : ℚ) < 2 ^ b := by positivity
  have hnumQ : (0 : ℚ) ≤ num := Nat.cast_nonneg num
  have hdenQ : (0 : ℚ) ≤ den := Nat.cast_nonneg den
  by_cases hc : den * 2 ^ (a + 1) ≤ num * 2 ^ (b + 1)
  · rw [if_pos hc]
    have hcQ : (den : ℚ) * 2 ^ (a + 1) ≤ (num : ℚ) * 2 ^ (b + 1) := by exact_mod_cast hc
    constructor
    · rw [zpow_sub₀ h2ne, div_mul_eq_mul_div, div_le_iff₀ (by positivity), zpow_natCast,
        zpow_natCast]
      have e1 : (den : ℚ) * 2 ^ (a + 1) = 2 * ((2 : ℚ) ^ a * den) := by ring
      have e2 : (num : ℚ) * 2 ^ (b + 1) = 2 * ((num : ℚ) * 2 ^ b) := by ring
      linarith
    · have hexp : (a : ℤ) - b + 1 = ((a + 1 : ℕ) : ℤ) - b := by push_cast; ring
      rw [hexp, zpow_sub₀ h2ne, div_mul_eq_mul_div, lt_div_iff₀ (by positivity), zpow_natCast,
        zpow_natCast]
      have e1 : (num : ℚ) * 2 ^ b < 2 ^ (a + 1) * 2 ^ b :=
        mul_lt_mul_of_pos_right ha2Q hbpos
      have e2 : (2 : ℚ) ^ (a + 1) * 2 ^ b ≤ 2 ^ (a + 1) * den :=
        mul_le_mul_of_nonneg_left hb1Q (by positivity)
      linarith
  · rw [if_neg hc]
    push_neg at hc
    have hcQ : (num : ℚ) * 2 ^ (b + 1) < (den : ℚ) * 2 ^ (a + 1) := by exact_mod_cast hc
    constructor
    · have hexp : (a : ℤ) - b - 1 = (a : ℤ) - ((b + 1 : ℕ) : ℤ) := by push_cast; ring
      rw [hexp, zpow_sub₀ h2ne, div_mul_eq_mul_div, div_le_iff₀ (by positivity), zpow_natCast,
        zpow_natCast]
      have e1 : (2 : ℚ) ^ a * den ≤ (num : ℚ) * den :=
        mul_le_mul_of_nonneg_right ha1Q hdenQ
      have e2 : (num : ℚ) * den ≤ (num : ℚ) * 2 ^ (b + 1) :=
        mul_le_mul_of_nonneg_left (le_of_lt hb2Q) hnumQ
      linarith
    · have hexp : (a : ℤ) - b - 1 + 1 = (a : ℤ) - b := by ring
      rw [hexp, zpow_sub₀ h2ne, div_mul_eq_mul_div, lt_div_iff₀ (by positivity), zpow_natCast,
        zpow_natCast]
      have e1 : (num : ℚ) * 2 ^ (b + 1) = 2 * ((num : ℚ) * 2 ^ b) := by ring
      have e2 : (den : ℚ) * 2 ^ (a + 1) = 2 * ((2 : ℚ) ^ a * den) := by ring
      linarith

theorem flround_bounds (mant : ℕ) (q : ℚ) (e : ℤ)
    (he : (2 : ℚ) ^ e ≤ q)
    (hlo : q * (2 : ℚ) ^ (52 - e) - 1 / 2 ≤ (mant : ℚ))
    (hhi : (mant : ℚ) ≤ q * (2 : ℚ) ^ (52 - e) + 1 / 2) :
    q * (1 - fpEps) ≤ (mant : ℚ) * (2 : ℚ) ^ (e - 52) ∧
    (mant : ℚ) * (2 : ℚ) ^ (e - 52) ≤ q * (1 + fpEps) := by
  have h2ne : (2 : ℚ) ≠ 0 := by norm_num
  have hp1 : (0 : ℚ) < (2 : ℚ) ^ (e - 52) := zpow_pos (by norm_num) _
  have hcollapse : (2 : ℚ) ^ (52 - e) * (2 : ℚ) ^ (e - 52) = 1 := by
    rw [← zpow_add₀ h2ne]
    norm_num
  have heps : (2 : ℚ) ^ (e - 52) * (1 / 2) ≤ q * fpEps := by
    have h1 : (2 : ℚ) ^ (e - 52) * (1 / 2) = (2 : ℚ) ^ e * (2 : ℚ) ^ (-53 : ℤ) := by
      rw [show (1 : ℚ) / 2 = (2 : ℚ) ^ (-1 : ℤ) by norm_num, ← zpow_add₀ h2ne,
        ← zpow_add₀ h2ne]
      congr 1
      ring
    have h2 : (2 : ℚ) ^ (-53 : ℤ) = fpEps := by
      rw [show (-53 : ℤ) = -(53 : ℕ) by norm_num, zpow_neg, zpow_natCast]
      norm_num [fpEps]
    rw [h1, h2]
    exact mul_le_mul_of_nonneg_right he (by norm_num [fpEps])
  constructor
  · have hm := mul_le_mul_of_nonneg_right hlo (le_of_lt hp1)
    have hexp : (q * (2 : ℚ) ^ (52 - e) - 1 / 2) * (2 : ℚ) ^ (e - 52) =
        q - (2 : ℚ) ^ (e - 52) * (1 / 2) := by
      rw [sub_mul, mul_assoc, hcollapse, mul_one]
      ring
    have hg : q * (1 - fpEps) = q - q * fpEps := by ring
    rw [hg]
    linarith
  · have hm := mul_le_mul_of_nonneg_right hhi (le_of_lt hp1)
    have hexp : (q * (2 : ℚ) ^ (52 - e) + 1 / 2) * (2 : ℚ) ^ (e - 52) =
        q + (2 : ℚ) ^ (e - 52) * (1 / 2) := by
      rw [add_mul, mul_assoc, hcollapse, mul_one]
      ring
    have hg : q * (1 + fpEps) = q + q * fpEps := by ring
    rw [hg]
    linarith

theorem flFrac_eq (num den : ℕ) (h : ¬(num = 0 ∨ den = 0)) :
    flFrac num den =
      ⟨if qfloorLog2 num den ≤ 52 then rdiv (num * 2 ^ (52 - qfloorLog2 num den).toNat) den
        else rdiv num (den * 2 ^ (qfloorLog2 num den - 52).toNat),
       qfloorLog2 num den - 52⟩ := by
  unfold flFrac
  rw [if_neg h]

theorem valF_mk (m : ℕ) (e : ℤ) : valF ⟨m, e⟩ = (m : ℚ) * (2 : ℚ) ^ e := rfl

theorem flFrac_bounds (num den : ℕ) (hnum : 0 < num) (hden : 0 < den) :
    (num : ℚ) / den * (1 - fpEps) ≤ valF (flFrac num den) ∧
    valF (flFrac num den) ≤ (num : ℚ) / den * (1 + fpEps) := by
  obtain ⟨hbr1, hbr2⟩ := qfloorLog2_bracket num den hnum hden
  set e := qfloorLog2 num den with he
  have h2ne : (2 : ℚ) ≠ 0 := by norm_num
  have hdenQ : (0 : ℚ) < den := by exact_mod_cast hden
  have he1 : (2 : ℚ) ^ e ≤ (num : ℚ) / den := by
    rw [le_div_iff₀ hdenQ]
    exact hbr1
  rw [flFrac_eq num den (by omega)]
  rw [← he]
  by_cases hc : e ≤ 52
  · rw [if_pos hc, valF_mk]
    obtain ⟨hr1, hr2⟩ := rdiv_bounds (num * 2 ^ (52 - e).toNat) den hden
    have hs : (((52 : ℤ) - e).toNat : ℤ) = 52 - e := Int.toNat_of_nonneg (by omega)
    have hsid : ((num * 2 ^ (52 - e).toNat : ℕ) : ℚ) / den =
        (num : ℚ) / den * (2 : ℚ) ^ ((52 : ℤ) - e) := by
      push_cast
      rw [← zpow_natCast (2 : ℚ) ((52 - e).toNat), hs]
      ring
    rw [hsid] at hr1 hr2
    exact flround_bounds _ _ e he1 hr1 hr2
  · rw [if_neg hc, valF_mk]
    have hdpos : 0 < den * 2 ^ (e - 52).toNat := by positivity
    obtain ⟨hr1, hr2⟩ := rdiv_bounds num (den * 2 ^ (e - 52).toNat) hdpos
    have hs' : (((e : ℤ) - 52).toNat : ℤ) = e - 52 := Int.toNat_of_nonneg (by omega)
    have hsid : (num : ℚ) / ((den * 2 ^ (e - 52).toNat : ℕ) : ℚ) =
        (num : ℚ) / den * (2 : ℚ) ^ ((52 : ℤ) - e) := by
      push_cast
      rw [← zpow_natCast (2 : ℚ) ((e - 52).toNat), hs']
      rw [zpow_sub₀ h2ne, zpow_sub₀ h2ne]
      field_simp
    rw [hsid] at hr1 hr2
    exact flround_bounds _ _ e he1 hr1 hr2

theorem flFrac_int (n : ℕ) (h0 : 0 < n) (hlt : n < 2 ^ 53) : valF (flFrac n 1) = n := by
  obtain ⟨hbr1, hbr2⟩ := qfloorLog2_bracket n 1 h0 one_pos
  set e := qfloorLog2 n 1 with he
  have h2ne : (2 : ℚ) ≠ 0 := by norm_num
  rw [Nat.cast_one, mul_one] at hbr1 hbr2
  have heub : e ≤ 52 := by
    by_contra hgt
    push_neg at hgt
    have h53 : (2 : ℚ) ^ (53 : ℤ) ≤ (2 : ℚ) ^ e := by
      apply zpow_le_zpow_right₀ (by norm_num) (by omega)
    have hn : (n : ℚ) < (2 : ℚ) ^ (53 : ℤ) := by
      have hc : (n : ℚ) < ((2 ^ 53 : ℕ) : ℚ) := by exact_mod_cast hlt
      rw [show ((53 : ℤ)) = ((53 : ℕ) : ℤ) from rfl, zpow_natCast]
      push_cast at hc
      exact hc
    linarith
  have helb : 0 ≤ e := by
    by_contra hneg
    push_neg at hneg
    have h1 : (2 : ℚ) ^ (e + 1) ≤ 1 := by
      calc (2 : ℚ) ^ (e + 1) ≤ (2 : ℚ) ^ (0 : ℤ) :=
            zpow_le_zpow_right₀ (by norm_num) (by omega)
        _ = 1 := zpow_zero 2
    have h2 : (1 : ℚ) ≤ n := by exact_mod_cast h0
    linarith
  rw [flFrac_eq n 1 (by omega), ← he, if_pos heub, rdiv_one, valF_mk]
  have hs : (((52 : ℤ) - e).toNat : ℤ) = 52 - e := Int.toNat_of_nonneg (by omega)
  push_cast
  rw [← zpow_natCast (2 : ℚ) ((52 - e).toNat), hs, mul_assoc,
    ← zpow_add₀ h2ne]
  have hz : (52 : ℤ) - e + (e - 52) = 0 := by ring
  rw [hz, zpow_zero, mul_one]

theorem flMulF_bounds (f g : Fp64) (hf : 0 < f.m) (hg : 0 < g.m) :
    valF f * valF g * (1 - fpEps) ≤ valF (flMulF f g) ∧
    valF (flMulF f g) ≤ valF f * valF g * (1 + fpEps) := by
  have h2ne : (2 : ℚ) ≠ 0 := by norm_num
  unfold flMulF
  rw [if_neg (by omega : ¬(f.m = 0 ∨ g.m = 0))]
  by_cases hc : 0 ≤ f.e + g.e
  · rw [if_pos hc]
    have hpos : 0 < f.m * g.m * 2 ^ (f.e + g.e).toNat := by positivity
    obtain ⟨hb1, hb2⟩ := flFrac_bounds (f.m * g.m * 2 ^ (f.e + g.e).toNat) 1 hpos one_pos
    have hid : ((f.m * g.m * 2 ^ (f.e + g.e).toNat : ℕ) : ℚ) / (1 : ℕ) =
        valF f * valF g := by
      push_cast
      simp only [valF]
      rw [div_one, ← zpow_natCast (2 : ℚ) ((f.e + g.e).toNat), Int.toNat_of_nonneg hc,
        zpow_add₀ h2ne]
      ring
    rw [hid] at hb1 hb2
    exact ⟨hb1, hb2⟩
  · rw [if_neg hc]
    have hden : 0 < 2 ^ (-(f.e + g.e)).toNat := by positivity
    obtain ⟨hb1, hb2⟩ := flFrac_bounds (f.m * g.m) (2 ^ (-(f.e + g.e)).toNat)
      (by positivity) hden
    have hid : ((f.m * g.m : ℕ) : ℚ) / ((2 ^ (-(f.e + g.e)).toNat : ℕ) : ℚ) =
        valF f * valF g := by
      push_cast
      simp only [valF]
      rw [div_eq_mul_inv, ← zpow_natCast (2 : ℚ) ((-(f.e + g.e)).toNat),
        Int.toNat_of_nonneg (by omega), ← zpow_neg, neg_neg, zpow_add₀ h2ne]
      ring
    rw [hid] at hb1 hb2
    exact ⟨hb1, hb2⟩

theorem floorF_eq (f : Fp64) : floorF f = ⌊valF f⌋₊ := by
  unfold floorF
  by_cases hc : 0 ≤ f.e
  · rw [if_pos hc]
    have hval : valF f = ((f.m * 2 ^ f.e.toNat : ℕ) : ℚ) := by
      simp only [valF]
      push_cast
      rw [← zpow_natCast (2 : ℚ) f.e.toNat, Int.toNat_of_nonneg hc]
    rw [hval, Nat.floor_natCast]
  · rw [if_neg hc]
    have hval : valF f = (f.m : ℚ) / ((2 ^ (-f.e).toNat : ℕ) : ℚ) := by
      simp only [valF]
      push_cast
      rw [div_eq_mul_inv, ← zpow_natCast (2 : ℚ) ((-f.e).toNat),
        Int.toNat_of_nonneg (by omega), ← zpow_neg, neg_neg]
    rw [hval, Nat.floor_div_nat, Nat.floor_natCast]

theorem scaledDim_bound (x m M : Nat) (hxM : x ≤ M) (hM : 0 < M) (hMB : M ≤ 2 ^ 51)
    (hmB : m ≤ 2 ^ 51) :
    scaledDim x m M ≤ m ∧ scaledDim x m M ≤ x * m / M + 1 ∧
    x * m / M ≤ scaledDim x m M + 1 ∧ (M < m * x → 0 < scaledDim x m M) := by
  rcases Nat.eq_zero_or_pos x with hx0 | hx
  · subst hx0
    have hz : scaledDim 0 m M = 0 := by
      simp [scaledDim, flFrac, flMulF, floorF]
    have hdiv : 0 * m / M = 0 := by simp
    rw [hz, hdiv]
    exact ⟨Nat.zero_le m, by omega, by omega, fun hMx => by omega⟩
  rcases Nat.eq_zero_or_pos m with hm0 | hm
  · subst hm0
    have hz : scaledDim x 0 M = 0 := by
      simp [scaledDim, flFrac, flMulF, floorF]
    have hdiv : x * 0 / M = 0 := by simp
    rw [hz, hdiv]
    exact ⟨Nat.le_refl 0, by omega, by omega, fun hMx => by omega⟩
  -- main case: 0 < x, 0 < m
  have hxB : x ≤ 2 ^ 51 := le_trans hxM hMB
  have hx53 : x < 2 ^ 53 := lt_of_le_of_lt hxB (by norm_num)
  have hfx : valF (flFrac x 1) = x := flFrac_int x hx hx53
  have hxQpos : (0 : ℚ) < x := by exact_mod_cast hx
  have hepsgt : (0 : ℚ) < 1 - fpEps := by norm_num [fpEps]
  have hfxm : 0 < (flFrac x 1).m := by
    by_contra h0
    have hm0 : (flFrac x 1).m = 0 := by omega
    have hzero : valF (flFrac x 1) = 0 := by simp [valF, hm0]
    rw [hfx] at hzero
    exact absurd hzero (ne_of_gt hxQpos)
  have hMQ : (0 : ℚ) < M := by exact_mod_cast hM
  obtain ⟨hs1, hs2⟩ := flFrac_bounds m M hm hM
  have hdpos : (0 : ℚ) < (m : ℚ) / M * (1 - fpEps) := by
    have hmQ : (0 : ℚ) < m := by exact_mod_cast hm
    positivity
  have hsm : 0 < (flFrac m M).m := by
    by_contra h0
    have hm0 : (flFrac m M).m = 0 := by omega
    have hzero : valF (flFrac m M) = 0 := by simp [valF, hm0]
    rw [hzero] at hs1
    linarith
  obtain ⟨ht1, ht2⟩ := flMulF_bounds (flFrac x 1) (flFrac m M) hfxm hsm
  rw [hfx] at ht1 ht2
  set s := valF (flFrac m M) with hsdef
  set t := valF (flMulF (flFrac x 1) (flFrac m M)) with htdef
  set A : ℚ := (x : ℚ) * ((m : ℚ) / M) with hA
  have hAalt : A = ((x * m : ℕ) : ℚ) / M := by
    rw [hA]
    push_cast
    ring
  have hxQ : (0 : ℚ) ≤ x := Nat.cast_nonneg x
  have hA0 : 0 ≤ A := by rw [hA]; positivity
  have hup : t ≤ A * (1 + fpEps) * (1 + fpEps) := by
    have h1 : (x : ℚ) * s ≤ A * (1 + fpEps) := by
      calc (x : ℚ) * s ≤ (x : ℚ) * ((m : ℚ) / M * (1 + fpEps)) :=
            mul_le_mul_of_nonneg_left hs2 hxQ
        _ = A * (1 + fpEps) := by rw [hA]; ring
    calc t ≤ (x : ℚ) * s * (1 + fpEps) := ht2
      _ ≤ A * (1 + fpEps) * (1 + fpEps) :=
          mul_le_mul_of_nonneg_right h1 (by norm_num [fpEps])
  have hlo : A * (1 - fpEps) * (1 - fpEps) ≤ t := by
    have h1 : A * (1 - fpEps) ≤ (x : ℚ) * s := by
      calc A * (1 - fpEps) = (x : ℚ) * ((m : ℚ) / M * (1 - fpEps)) := by rw [hA]; ring
        _ ≤ (x : ℚ) * s := mul_le_mul_of_nonneg_left hs1 hxQ
    calc A * (1 - fpEps) * (1 - fpEps) ≤ (x : ℚ) * s * (1 - fpEps) :=
          mul_le_mul_of_nonneg_right h1 (le_of_lt hepsgt)
      _ ≤ t := ht1
  have hAm : A ≤ m := by
    rw [hA]
    calc (x : ℚ) * ((m : ℚ) / M) ≤ (M : ℚ) * ((m : ℚ) / M) :=
          mul_le_mul_of_nonneg_right (by exact_mod_cast hxM) (by positivity)
      _ = m := by field_simp
  have hA2251 : A ≤ 2251799813685248 := by
    have hmQ : (m : ℚ) ≤ 2251799813685248 := by exact_mod_cast hmB
    linarith
  have herr_up : A * (1 + fpEps) * (1 + fpEps) < A + 1 := by
    have hexp : A * (1 + fpEps) * (1 + fpEps) - A = A * (2 * fpEps + fpEps * fpEps) := by
      ring
    have hstep : A * (2 * fpEps + fpEps * fpEps) ≤
        2251799813685248 * (2 * fpEps + fpEps * fpEps) :=
      mul_le_mul_of_nonneg_right hA2251 (by norm_num [fpEps])
    have hnum : (2251799813685248 : ℚ) * (2 * fpEps + fpEps * fpEps) < 1 := by
      norm_num [fpEps]
    linarith
  have hup1 : t < A + 1 := lt_of_le_of_lt hup herr_up
  have ht0 : 0 ≤ t :=
    le_trans (mul_nonneg (mul_nonneg hA0 (le_of_lt hepsgt)) (le_of_lt hepsgt)) hlo
  have hpfl : scaledDim x m M = ⌊t⌋₊ := by
    rw [scaledDim, floorF_eq]
  set E := x * m / M with hE
  have hE1 : (E : ℚ) ≤ A := by
    rw [hAalt, le_div_iff₀ hMQ]
    exact_mod_cast Nat.div_mul_le_self (x * m) M
  have hE2 : A < (E : ℚ) + 1 := by
    rw [hAalt, div_lt_iff₀ hMQ]
    have hlt : x * m < (E + 1) * M := by
      have h1 := Nat.div_add_mod (x * m) M
      have h2 := Nat.mod_lt (x * m) hM
      calc x * m = M * (x * m / M) + x * m % M := h1.symm
        _ < M * (x * m / M) + M := Nat.add_lt_add_left h2 _
        _ = (x * m / M + 1) * M := by ring
    calc ((x * m : ℕ) : ℚ) < (((E + 1) * M : ℕ) : ℚ) := by exact_mod_cast hlt
      _ = ((E : ℚ) + 1) * M := by push_cast; ring
  have hc1 : ⌊t⌋₊ ≤ m := by
    have hlt : t < ((m + 1 : ℕ) : ℚ) := by
      push_cast
      linarith
    have := (Nat.floor_lt ht0).mpr hlt
    omega
  have hc2 : ⌊t⌋₊ ≤ E + 1 := by
    have hlt : t < ((E + 2 : ℕ) : ℚ) := by
      push_cast
      linarith
    have := (Nat.floor_lt ht0).mpr hlt
    omega
  have hdown : A - 1 / 2 ≤ t := by
    have hexp : A - A * (1 - fpEps) * (1 - fpEps) = A * (2 * fpEps - fpEps * fpEps) := by
      ring
    have hstep : A * (2 * fpEps - fpEps * fpEps) ≤
        2251799813685248 * (2 * fpEps - fpEps * fpEps) :=
      mul_le_mul_of_nonneg_right hA2251 (by norm_num [fpEps])
    have hnum : (2251799813685248 : ℚ) * (2 * fpEps - fpEps * fpEps) ≤ 1 / 2 := by
      norm_num [fpEps]
    linarith
  have hc3 : E ≤ ⌊t⌋₊ + 1 := by
    rcases Nat.eq_zero_or_pos E with h | h
    · omega
    · have hcast : ((E - 1 : ℕ) : ℚ) = (E : ℚ) - 1 := by
        push_cast [h]
        ring
      have hle : ((E - 1 : ℕ) : ℚ) ≤ t := by
        rw [hcast]
        linarith
      have := Nat.le_floor hle
      omega
  have hc4 : M < m * x → 0 < ⌊t⌋₊ := by
    intro hMx
    have hA1 : 1 + 1 / (M : ℚ) ≤ A := by
      have h0 : M + 1 ≤ x * m := by
        rw [Nat.mul_comm]
        omega
      have h1 : ((M + 1 : ℕ) : ℚ) ≤ ((x * m : ℕ) : ℚ) := by
        exact_mod_cast h0
      have h2 : 1 + 1 / (M : ℚ) = ((M + 1 : ℕ) : ℚ) / M := by
        push_cast
        field_simp
      rw [h2, hAalt]
      gcongr
    have hMinv : 4 * fpEps ≤ 1 / (M : ℚ) := by
      rw [le_div_iff₀ hMQ]
      have hMle : (M : ℚ) ≤ 2251799813685248 := by exact_mod_cast hMB
      calc 4 * fpEps * M ≤ 4 * fpEps * 2251799813685248 :=
            mul_le_mul_of_nonneg_left hMle (by norm_num [fpEps])
        _ ≤ 1 := by norm_num [fpEps]
    have e1 : A * (1 - 2 * fpEps) ≤ A * (1 - fpEps) * (1 - fpEps) := by
      have hexp : A * (1 - fpEps) * (1 - fpEps) - A * (1 - 2 * fpEps) =
          A * (fpEps * fpEps) := by ring
      have := mul_nonneg hA0 (mul_nonneg (by norm_num [fpEps] : (0:ℚ) ≤ fpEps)
        (by norm_num [fpEps] : (0:ℚ) ≤ fpEps))
      linarith
    have e2 : (1 + 1 / (M : ℚ)) * (1 - 2 * fpEps) ≤ A * (1 - 2 * fpEps) :=
      mul_le_mul_of_nonneg_right hA1 (by norm_num [fpEps])
    have e3 : (1 : ℚ) ≤ (1 + 1 / (M : ℚ)) * (1 - 2 * fpEps) := by
      have hexp : (1 + 1 / (M : ℚ)) * (1 - 2 * fpEps) =
          1 - 2 * fpEps + 1 / M - 2 * fpEps * (1 / M) := by ring
      have h4 : 2 * fpEps * (1 / (M : ℚ)) ≤ (1 / 2) * (1 / M) :=
        mul_le_mul_of_nonneg_right (by norm_num [fpEps]) (by positivity)
      linarith
    have ht1' : (1 : ℚ) ≤ t := by linarith
    have := Nat.le_floor (show ((1 : ℕ) : ℚ) ≤ t by push_cast; exact ht1')
    omega
  rw [hpfl]
  exact ⟨hc1, hc2, hc3, hc4⟩

/-- Claim C2, counterexample: the claim describes the scaler as computing
`scale = max_size / max(w, h)` exactly, multiplying and truncating, with
the aspect ratio preserved within one unit.  In IEEE doubles,
`(3920, 49, 80)` yields `(80, 0)`: the exact computation gives height
`int(49 * 80 / 3920) = 1`, the cross-product ratio bound
`w' * h < h' * w + max w h` fails (`3920 < 0 + 3920` is false), and the
output differs from the exact scale-and-truncate result `(80, 1)`. -/
theorem scaleDims_counterexample :
    scaleDims 3920 49 80 = (80, 0) ∧
    49 * 80 / max 3920 49 = 1 ∧
    ¬ ((scaleDims 3920 49 80).1 * 49 < (scaleDims 3920 49 80).2 * 3920 + max 3920 49) ∧
    scaleDims 3920 49 80 ≠ (3920 * 80 / max 3920 49, 49 * 80 / max 3920 49) := by
  refine ⟨by decide, by decide, by decide, by decide⟩

/-- Claim C2 as amended: scaling is performed in IEEE binary64 —
`scale = fl(max_size / max(w, h))`, `w' = int(fl(fl(w) * scale))`.  For
positive dimensions and `w, h, max_size ≤ 2 ^ 51`: the results never
exceed `max_size`; dimensions pass through unchanged when neither exceeds
`max_size`; and in the scaled branch each output dimension is within one
unit of the exact truncation `w * max_size / max w h` — it may fall one
below it (as at `(3920, 49, 80)`) or one above, but no further. -/
theorem scaleDims_float_spec (w h m : Nat) (hw : 0 < w) (hh : 0 < h)
    (hwB : w ≤ 2 ^ 51) (hhB : h ≤ 2 ^ 51) (hmB : m ≤ 2 ^ 51) :
    (scaleDims w h m).1 ≤ m ∧ (scaleDims w h m).2 ≤ m ∧
    (w ≤ m → h ≤ m → scaleDims w h m = (w, h)) ∧
    ((m < w ∨ m < h) →
      (scaleDims w h m).1 ≤ w * m / max w h + 1 ∧
      w * m / max w h ≤ (scaleDims w h m).1 + 1 ∧
      (scaleDims w h m).2 ≤ h * m / max w h + 1 ∧
      h * m / max w h ≤ (scaleDims w h m).2 + 1) := by
  by_cases hbr : m < w ∨ m < h
  · have hM : 0 < max w h := by omega
    have hMB : max w h ≤ 2 ^ 51 := by omega
    have hsc : scaleDims w h m =
        (scaledDim w m (max w h), scaledDim h m (max w h)) := by
      unfold scaleDims
      rw [if_pos hbr]
    obtain ⟨hw1, hw2, hw3, _⟩ := scaledDim_bound w m (max w h) (le_max_left w h) hM hMB hmB
    obtain ⟨hh1, hh2, hh3, _⟩ := scaledDim_bound h m (max w h) (le_max_right w h) hM hMB hmB
    rw [hsc]
    exact ⟨hw1, hh1, fun h1 h2 => by omega, fun _ => ⟨hw2, hw3, hh2, hh3⟩⟩
  · have hsc : scaleDims w h m = (w, h) := by
      unfold scaleDims
      rw [if_neg hbr]
    rw [hsc]
    exact ⟨by omega, by omega, fun _ _ => rfl, fun hc => absurd hc hbr⟩

theorem scaleDims_float_spec_witness :
    (scaleDims 100 50 80).1 ≤ 80 ∧ (scaleDims 100 50 80).2 ≤ 80 ∧
    (100 ≤ 80 → 50 ≤ 80 → scaleDims 100 50 80 = (100, 50)) ∧
    ((80 < 100 ∨ 80 < 50) →
      (scaleDims 100 50 80).1 ≤ 100 * 80 / max 100 50 + 1 ∧
      100 * 80 / max 100 50 ≤ (scaleDims 100 50 80).1 + 1 ∧
      (scaleDims 100 50 80).2 ≤ 50 * 80 / max 100 50 + 1 ∧
      50 * 80 / max 100 50 ≤ (scaleDims 100 50 80).2 + 1) :=
  scaleDims_float_spec 100 50 80 (by decide) (by decide) (by norm_num) (by norm_num)
    (by norm_num)

/-! ### Document template builder (`svg_to_mxgraph_xml`, svg_to_drawio.py lines 45-74) -/

/-- Uppercase hexadecimal digit. -/
def hexDigitUpper (n : Nat) : Char :=
  "0123456789ABCDEF".toList.getD n '0'

/-- Python `urllib.parse.quote(s, safe='')`: percent-encode every character
other than the unreserved `[A-Za-z0-9_.~-]` (applied here to ASCII base64
text). -/
def pquote (s : List Char) : List Char :=
  s.flatMap (fun c =>
    if c.isAlphanum ∨ c = '_' ∨ c = '.' ∨ c = '~' ∨ c = '-' then [c]
    else ['%', hexDigitUpper (c.toNat / 16), hexDigitUpper (c.toNat % 16)])

/-- Decimal representation of a natural number, as characters. -/
def natChars (n : Nat) : List Char := (Nat.repr n).toList

/-- `svg_to_mxgraph_xml` from `src/converters/svg_to_drawio.py`: the fixed
mxGraph fragment with the base64- and percent-encoded SVG bytes inlined and
the two geometry numbers substituted. -/
def svg_to_mxgraph_xml (svgBytes : List Nat) (width height : Nat) : List Char :=
  let svg_base64 := b64encode svgBytes
  let svg_data := pquote svg_base64
  "<mxGraphModel>\n  <root>\n    <mxCell id=\"0\"/>\n    <mxCell id=\"1\" parent=\"0\"/>\n    <mxCell id=\"2\" value=\"\" style=\"shape=image;verticalLabelPosition=bottom;labelBackgroundColor=default;verticalAlign=top;aspect=fixed;imageAspect=0;image=data:image/svg+xml,".toList ++
  svg_data ++
  ";\" vertex=\"1\" parent=\"1\">\n      <mxGeometry width=\"".toList ++
  natChars width ++
  "\" height=\"".toList ++
  natChars height ++
  "\" as=\"geometry\"/>\n    </mxCell>\n  </root>\n</mxGraphModel>".toList

/-! ### Library entries (`create_library_entry`, svg_to_drawio.py lines 94-131) -/

/-- One icon record of the library document: the dict
`{"xml": ..., "w": ..., "h": ..., "title": ..., "aspect": "fixed"}`. -/
structure LibraryEntry where
  xml : List Char
  w : Nat
  h : Nat
  title : List Char
  aspect : List Char
deriving DecidableEq, Repr

/-- `create_library_entry` from `src/converters/svg_to_drawio.py`: extract
dimensions, scale down if too large, build the mxGraph template, compress
and encode it.  The external XML parse of the SVG text is abstracted as
`parsed` (see `get_svg_dimensions`); `svgBytes` are the SVG text's UTF-8
bytes; the external zlib compressor is a parameter as in
`compress_and_encode`.  The template text is ASCII, so its UTF-8 bytes are
the character codes. -/
def create_library_entry (zlibCompress : List Nat → List Nat)
    (parsed : Option (List (List Char × List Char))) (svgBytes : List Nat)
    (title : List Char) (max_size : Nat) : LibraryEntry :=
  let wh := get_svg_dimensions parsed
  let wh2 := scaleDims wh.1 wh.2 max_size
  let mxgraph_xml := svg_to_mxgraph_xml svgBytes wh2.1 wh2.2
  { xml := compress_and_encode zlibCompress (mxgraph_xml.map Char.toNat)
    w := wh2.1
    h := wh2.2
    title := title
    aspect := "fixed".toList }

/-- Claim C3, counterexample: the claim says width and height of the record
are always strictly positive, but an SVG declaring `width="0"` yields a
record with width 0. -/
theorem create_library_entry_pos_counterexample :
    (create_library_entry zlibStored
      (some [("width".toList, "0".toList), ("height".toList, "48".toList)])
      [] [] 80).w = 0 := by
  rfl

/-- Claim C3 as amended: the record's width and height never exceed
`max_size` (for extracted dimensions and `max_size` up to `2 ^ 51`,
keeping the double computation in range), with no positivity proviso
needed for that bound; they are strictly positive provided the extracted
source dimensions are positive and the aspect ratio is strictly below
`max_size : 1`, i.e. `max w h < max_size * min w h`.  At equality the
double rounding can truncate the smaller side to zero — an SVG of
3920 x 49 at `max_size = 80` (where `3920 = 80 * 49`) yields height
`int(49 * (80/3920)) = 0` — and a zero extracted dimension passes through
as zero, as the counterexample shows. -/
theorem create_library_entry_dims (zlibCompress : List Nat → List Nat)
    (parsed : Option (List (List Char × List Char))) (svgBytes : List Nat)
    (title : List Char) (max_size : Nat)
    (hwB : (get_svg_dimensions parsed).1 ≤ 2 ^ 51)
    (hhB : (get_svg_dimensions parsed).2 ≤ 2 ^ 51)
    (hmB : max_size ≤ 2 ^ 51) :
    ((create_library_entry zlibCompress parsed svgBytes title max_size).w ≤ max_size ∧
     (create_library_entry zlibCompress parsed svgBytes title max_size).h ≤ max_size) ∧
    (0 < (get_svg_dimensions parsed).1 → 0 < (get_svg_dimensions parsed).2 →
      max (get_svg_dimensions parsed).1 (get_svg_dimensions parsed).2 <
        max_size * min (get_svg_dimensions parsed).1 (get_svg_dimensions parsed).2 →
      0 < (create_library_entry zlibCompress parsed svgBytes title max_size).w ∧
      0 < (create_library_entry zlibCompress parsed svgBytes title max_size).h) := by
  have hweq : (create_library_entry zlibCompress parsed svgBytes title max_size).w =
      (scaleDims (get_svg_dimensions parsed).1 (get_svg_dimensions parsed).2 max_size).1 :=
    rfl
  have hheq : (create_library_entry zlibCompress parsed svgBytes title max_size).h =
      (scaleDims (get_svg_dimensions parsed).1 (get_svg_dimensions parsed).2 max_size).2 :=
    rfl
  rw [hweq, hheq]
  set w0 := (get_svg_dimensions parsed).1 with hw0
  set h0 := (get_svg_dimensions parsed).2 with hh0
  by_cases hbr : max_size < w0 ∨ max_size < h0
  · have hM : 0 < max w0 h0 := by omega
    have hMB : max w0 h0 ≤ 2 ^ 51 := by omega
    have hsc : scaleDims w0 h0 max_size =
        (scaledDim w0 max_size (max w0 h0), scaledDim h0 max_size (max w0 h0)) := by
      unfold scaleDims
      rw [if_pos hbr]
    obtain ⟨hw1, _, _, hw4⟩ :=
      scaledDim_bound w0 max_size (max w0 h0) (le_max_left w0 h0) hM hMB hmB
    obtain ⟨hh1, _, _, hh4⟩ :=
      scaledDim_bound h0 max_size (max w0 h0) (le_max_right w0 h0) hM hMB hmB
    rw [hsc]
    refine ⟨⟨hw1, hh1⟩, fun hpw hph hasp => ⟨hw4 ?_, hh4 ?_⟩⟩
    · calc max w0 h0 < max_size * min w0 h0 := hasp
        _ ≤ max_size * w0 := Nat.mul_le_mul_left max_size (min_le_left w0 h0)
    · calc max w0 h0 < max_size * min w0 h0 := hasp
        _ ≤ max_size * h0 := Nat.mul_le_mul_left max_size (min_le_right w0 h0)
  · have hsc : scaleDims w0 h0 max_size = (w0, h0) := by
      unfold scaleDims
      rw [if_neg hbr]
    rw [hsc]
    exact ⟨⟨by omega, by omega⟩, fun hpw hph _ => ⟨hpw, hph⟩⟩

theorem create_library_entry_dims_witness :
    (((create_library_entry zlibStored
        (some [("width".toList, "100".toList), ("height".toList, "50".toList)])
        [] [] 80).w ≤ 80 ∧
      (create_library_entry zlibStored
        (some [("width".toList, "100".toList), ("height".toList, "50".toList)])
        [] [] 80).h ≤ 80) ∧
    (0 < (get_svg_dimensions
        (some [("width".toList, "100".toList), ("height".toList, "50".toList)])).1 →
      0 < (get_svg_dimensions
        (some [("width".toList, "100".toList), ("height".toList, "50".toList)])).2 →
      max (get_svg_dimensions
          (some [("width".toList, "100".toList), ("height".toList, "50".toList)])).1
        (get_svg_dimensions
          (some [("width".toList, "100".toList), ("height".toList, "50".toList)])).2 <
        80 * min (get_svg_dimensions
          (some [("width".toList, "100".toList), ("height".toList, "50".toList)])).1
        (get_svg_dimensions
          (some [("width".toList, "100".toList), ("height".toList, "50".toList)])).2 →
      0 < (create_library_entry zlibStored
        (some [("width".toList, "100".toList), ("height".toList, "50".toList)])
        [] [] 80).w ∧
      0 < (create_library_entry zlibStored
        (some [("width".toList, "100".toList), ("height".toList, "50".toList)])
        [] [] 80).h)) :=
  create_library_entry_dims zlibStored
    (some [("width".toList, "100".toList), ("height".toList, "50".toList)])
    [] [] 80 (by decide) (by decide) (by decide)

/-- Claim C4, counterexample: the claim says any input with a malformed or
missing width/height attribute returns exactly (48, 48); but a root element
with no `width` attribute and `height="100"` returns (48, 100). -/
theorem get_svg_dimensions_counterexample :
    get_svg_dimensions (some [("height".toList, "100".toList)]) = (48, 100) ∧
    (48, 100) ≠ ((48 : Nat), (48 : Nat)) := by
  constructor
  · rfl
  · decide

/-- Claim C4 as amended: `get_svg_dimensions` is total — a parse failure
yields (48, 48), and otherwise the result is either (48, 48) (when the
numeric conversion of either attribute raises) or the pair of per-attribute
values, where a missing attribute or one whose digit/dot filtrate is empty
falls back to 48 for that attribute individually. -/
theorem get_svg_dimensions_fallback :
    get_svg_dimensions none = (48, 48) ∧
    ∀ attrs, get_svg_dimensions (some attrs) = (48, 48) ∨
      ∃ w h, parseDim (pyGetAttr attrs "width".toList) = some w ∧
        parseDim (pyGetAttr attrs "height".toList) = some h ∧
        get_svg_dimensions (some attrs) = (w, h) := by
  have hsome : ∀ attrs, get_svg_dimensions (some attrs) =
      match parseDim (pyGetAttr attrs "width".toList),
            parseDim (pyGetAttr attrs "height".toList) with
      | some w, some h => (w, h)
      | _, _ => (48, 48) := fun _ => rfl
  refine ⟨rfl, fun attrs => ?_⟩
  rw [hsome]
  cases hw : parseDim (pyGetAttr attrs "width".toList) with
  | none => left; rfl
  | some w =>
      cases hh : parseDim (pyGetAttr attrs "height".toList) with
      | none => left; rfl
      | some h => exact Or.inr ⟨w, h, rfl, rfl, rfl⟩

theorem get_svg_dimensions_fallback_witness :
    get_svg_dimensions none = (48, 48) ∧
    (get_svg_dimensions (some [("width".toList, "abc".toList)]) = (48, 48) ∨
      ∃ w h, parseDim (pyGetAttr [("width".toList, "abc".toList)] "width".toList) = some w ∧
        parseDim (pyGetAttr [("width".toList, "abc".toList)] "height".toList) = some h ∧
        get_svg_dimensions (some [("width".toList, "abc".toList)]) = (w, h)) :=
  ⟨get_svg_dimensions_fallback.1,
    get_svg_dimensions_fallback.2 [("width".toList, "abc".toList)]⟩

/-! ### Category inference (`FabricFetcher`, fabric.py lines 122-192, and
`Microsoft365Fetcher.get_categories`, microsoft365.py lines 184-217)

Paths are lists of components relative to the extracted icons directory;
an SVG file path's `dropLast` is its parent directory.  `pathlib` sorts
paths by their string form, modelled by `pathStr` below. -/

/-- A directory or file path, as components relative to the icons root. -/
abbrev DirPath := List (List Char)

/-- Lexicographic order on character lists (Python string `<`). -/
def strLtB : List Char → List Char → Bool
  | [], [] => false
  | [], _ :: _ => true
  | _ :: _, [] => false
  | a :: as, b :: bs => if a = b then strLtB as bs else decide (a < b)

/-- `str(p)` of a path: components joined with `/`. -/
def pathStr (p : DirPath) : List Char := List.intercalate ['/'] p

/-- `pathlib` path comparison: by path string. -/
def pathLtB (p q : DirPath) : Bool := strLtB (pathStr p) (pathStr q)

/-- Insertion step of insertion sort. -/
def insertBy {α : Type} (lt : α → α → Bool) (x : α) : List α → List α
  | [] => [x]
  | y :: ys => if lt x y then x :: y :: ys else y :: insertBy lt x ys

/-- Insertion sort (Python `sorted`; inputs here have pairwise distinct
keys, so stability is immaterial). -/
def isortBy {α : Type} (lt : α → α → Bool) : List α → List α
  | [] => []
  | x :: xs => insertBy lt x (isortBy lt xs)

/-- `sorted` over paths. -/
def sortPaths : List DirPath → List DirPath := isortBy pathLtB

/-- `set(svg_file.parent for svg_file in svg_files)`: the distinct parent
directories, as a deduplicated list. -/
def parentsOf (fs : List DirPath) : List DirPath := (fs.map List.dropLast).dedup

/-- `depth_to_dirs[d]` of `_find_svg_root`: the distinct ancestors obtained
by truncating each parent of depth greater than `d` to `d + 1` components. -/
def dirsAtDepth (parents : List DirPath) (d : Nat) : List DirPath :=
  (parents.filterMap (fun p =>
    if d < p.length then some (p.take (d + 1)) else none)).dedup

/-- The largest parent depth; `depth_to_dirs` has exactly the keys below it. -/
def maxPathDepth (parents : List DirPath) : Nat :=
  parents.foldl (fun acc p => max acc p.length) 0

/-- `FabricFetcher._find_svg_root` (fabric.py lines 122-163).  `none` models
the `RuntimeError` raised when there are no SVG files.  The source draws
`list(dirs_at_depth)[0]` from a set with unspecified iteration order; the
embedding draws the head of the deduplicated list (the grouping-root
uniqueness theorem below shows the choice does not matter). -/
def findSvgRoot (fs : List DirPath) : Option DirPath :=
  if fs.isEmpty then none
  else
    let svg_parents := parentsOf fs
    if svg_parents.length = 1 then some (svg_parents.headD [])
    else
      match (List.range (maxPathDepth svg_parents)).find?
          (fun d => decide (1 < (dirsAtDepth svg_parents d).length)) with
      | some 0 => some []
      | some d => some ((dirsAtDepth svg_parents d).headD []).dropLast
      | none => some []

/-- `category_dir.name.replace('-', ' ').replace('_', ' ')`. -/
def cleanName (c : List Char) : List Char :=
  c.map (fun ch => if ch = '-' ∨ ch = '_' then ' ' else ch)

/-- `FabricFetcher.get_categories` (fabric.py lines 165-192): flat trees
yield one "Fabric Icons" category of the root's direct SVGs; hierarchical
trees yield one category per SVG-containing child directory of the SVG
root, named by that directory's base name with `-` and `_` mapped to
spaces, containing all SVGs below it.  Directories are derived from the
SVG file paths, so directories holding no SVGs anywhere below them (which
the source skips) do not arise. -/
def fabricGetCategories (fs : List DirPath) : List (List Char × List DirPath) :=
  match findSvgRoot fs with
  | none => []
  | some root =>
      let direct := sortPaths (fs.filter (fun f => decide (f.dropLast = root)))
      let subdirs := sortPaths ((fs.filterMap (fun f =>
        if root.isPrefixOf f.dropLast ∧ root.length < f.dropLast.length then
          some (f.dropLast.take (root.length + 1))
        else none)).dedup)
      if direct ≠ [] ∧ subdirs = [] then [("Fabric Icons".toList, direct)]
      else
        subdirs.filterMap (fun d =>
          let files := sortPaths (fs.filter (fun f => d.isPrefixOf f.dropLast))
          if files = [] then none
          else some (cleanName (d.getLastD []), files))

/-- `Microsoft365Fetcher.get_categories` with `_iter_svg_leaf_dirs`
(microsoft365.py lines 184-217): every directory that directly contains an
SVG file is one category, sorted by path string, named by the relative
path components joined with `" / "`. -/
def m365GetCategories (fs : List DirPath) : List (List Char × List DirPath) :=
  let category_dirs := sortPaths (parentsOf fs)
  category_dirs.filterMap (fun d =>
    let files := sortPaths (fs.filter (fun f => decide (f.dropLast = d)))
    if files = [] then none
    else some (List.intercalate " / ".toList d, files))

/-- The two-theme tree of claim C5. -/
def twoThemeTree : List DirPath :=
  [["Org1".toList, "ThemeA".toList, "a.svg".toList],
   ["Org1".toList, "ThemeA".toList, "b.svg".toList],
   ["Org1".toList, "ThemeB".toList, "c.svg".toList]]

/-- Claim C5: on a tree `R/Org1/ThemeA/*` and `R/Org1/ThemeB/*` with a
single top-level directory, category inference groups at the theme level —
one category per theme directory, not one collapsed `Org1` bucket —
because depth 0 has one distinct ancestor and depth 1 has two. -/
theorem fabric_two_level_inference :
    fabricGetCategories twoThemeTree =
      [("ThemeA".toList,
        [["Org1".toList, "ThemeA".toList, "a.svg".toList],
         ["Org1".toList, "ThemeA".toList, "b.svg".toList]]),
       ("ThemeB".toList,
        [["Org1".toList, "ThemeB".toList, "c.svg".toList]])] ∧
    findSvgRoot twoThemeTree = some [["Org1".toList].getLastD []] ∧
    (dirsAtDepth (parentsOf twoThemeTree) 0).length = 1 ∧
    (dirsAtDepth (parentsOf twoThemeTree) 1).length = 2 := by
  refine ⟨by decide, by decide, by decide, by decide⟩

theorem mem_insertBy {α : Type} (lt : α → α → Bool) (x a : α) (l : List α) :
    a ∈ insertBy lt x l ↔ a = x ∨ a ∈ l := by
  induction l with
  | nil => simp [insertBy]
  | cons y ys ih =>
      unfold insertBy
      by_cases hcmp : lt x y
      · rw [if_pos hcmp]
        simp [or_comm, or_assoc, or_left_comm]
      · rw [if_neg hcmp]
        simp [ih]
        tauto

theorem mem_isortBy {α : Type} (lt : α → α → Bool) (a : α) (l : List α) :
    a ∈ isortBy lt l ↔ a ∈ l := by
  induction l with
  | nil => simp [isortBy]
  | cons y ys ih => simp [isortBy, mem_insertBy, ih]

theorem mem_sortPaths (a : DirPath) (l : List DirPath) :
    a ∈ sortPaths l ↔ a ∈ l := mem_isortBy pathLtB a l

theorem take_succ_dropLast {α : Type} :
    ∀ (l : List α) (d : Nat), d < l.length → (l.take (d + 1)).dropLast = l.take d := by
  intro l
  induction l with
  | nil => intro d hd; simp at hd
  | cons a as ih =>
      intro d hd
      cases d with
      | zero => simp
      | succ e =>
          have he : e < as.length := by simpa using hd
          have hne : as.take (e + 1) ≠ [] :=
            List.ne_nil_of_length_pos (by rw [List.length_take]; omega)
          simp only [List.take_succ_cons, List.dropLast_cons_of_ne_nil hne, ih e he]

theorem eq_of_mem_of_length_le_one {α : Type} {l : List α} (h : l.length ≤ 1)
    {a b : α} (ha : a ∈ l) (hb : b ∈ l) : a = b := by
  match l with
  | [] => cases ha
  | [x] =>
      rw [List.mem_singleton] at ha hb
      rw [ha, hb]
  | x :: y :: ys => simp at h

theorem mem_dirsAtDepth {parents : List DirPath} {d : Nat} {p : DirPath} :
    p ∈ dirsAtDepth parents d ↔
      ∃ x ∈ parents, d < x.length ∧ p = x.take (d + 1) := by
  unfold dirsAtDepth
  rw [List.mem_dedup, List.mem_filterMap]
  constructor
  · rintro ⟨x, hx, hxe⟩
    by_cases hlen : d < x.length
    · rw [if_pos hlen, Option.some_inj] at hxe
      exact ⟨x, hx, hlen, hxe.symm⟩
    · rw [if_neg hlen] at hxe
      cases hxe
  · rintro ⟨x, hx, hlen, hp⟩
    exact ⟨x, hx, by rw [if_pos hlen, hp]⟩

/-- Claim C10: well-definedness of the grouping root.  For a non-empty set
of leaf paths with more than one distinct parent, at the smallest depth
`d` where more than one distinct ancestor exists, all those ancestors
agree on their first `d` components — they share one parent — so the
grouping root `_find_svg_root` computes as "parent of an arbitrary element
of the set" is independent of the element drawn. -/
theorem grouping_root_unique (fs : List DirPath) (d : Nat)
    (_hne : fs ≠ []) (_hmulti : 1 < (parentsOf fs).length)
    (hd : 1 < (dirsAtDepth (parentsOf fs) d).length)
    (hmin : ∀ e, e < d → (dirsAtDepth (parentsOf fs) e).length ≤ 1) :
    ∀ p ∈ dirsAtDepth (parentsOf fs) d, ∀ q ∈ dirsAtDepth (parentsOf fs) d,
      p.take d = q.take d ∧ p.dropLast = q.dropLast := by
  intro p hp q hq
  obtain ⟨x, hxmem, hxlen, hpx⟩ := mem_dirsAtDepth.1 hp
  obtain ⟨y, hymem, hylen, hqy⟩ := mem_dirsAtDepth.1 hq
  have hptake : p.take d = x.take d := by
    rw [hpx, List.take_take, min_eq_left (Nat.le_succ d)]
  have hqtake : q.take d = y.take d := by
    rw [hqy, List.take_take, min_eq_left (Nat.le_succ d)]
  have hpdl : p.dropLast = x.take d := by rw [hpx, take_succ_dropLast x d hxlen]
  have hqdl : q.dropLast = y.take d := by rw [hqy, take_succ_dropLast y d hylen]
  have hxy : x.take d = y.take d := by
    cases d with
    | zero => simp
    | succ e =>
        have hxe : e < x.length := by omega
        have hye : e < y.length := by omega
        have hxmem' : x.take (e + 1) ∈ dirsAtDepth (parentsOf fs) e :=
          mem_dirsAtDepth.2 ⟨x, hxmem, hxe, rfl⟩
        have hymem' : y.take (e + 1) ∈ dirsAtDepth (parentsOf fs) e :=
          mem_dirsAtDepth.2 ⟨y, hymem, hye, rfl⟩
        exact eq_of_mem_of_length_le_one (hmin e (Nat.lt_succ_self e)) hxmem' hymem'
  exact ⟨by rw [hptake, hqtake, hxy], by rw [hpdl, hqdl, hxy]⟩

theorem grouping_root_unique_witness :
    (["o".toList, "a".toList] : DirPath) ∈
        dirsAtDepth (parentsOf [["o".toList, "a".toList, "f.svg".toList],
          ["o".toList, "b".toList, "g.svg".toList]]) 1 ∧
    (["o".toList, "b".toList] : DirPath) ∈
        dirsAtDepth (parentsOf [["o".toList, "a".toList, "f.svg".toList],
          ["o".toList, "b".toList, "g.svg".toList]]) 1 ∧
    ((["o".toList, "a".toList] : DirPath).take 1 = (["o".toList, "b".toList] : DirPath).take 1 ∧
      (["o".toList, "a".toList] : DirPath).dropLast = (["o".toList, "b".toList] : DirPath).dropLast) :=
  ⟨by decide, by decide,
    grouping_root_unique
      [["o".toList, "a".toList, "f.svg".toList], ["o".toList, "b".toList, "g.svg".toList]] 1
      (by decide) (by decide) (by decide) (by decide)
      ["o".toList, "a".toList] (by decide) ["o".toList, "b".toList] (by decide)⟩

/-- Claim C6, counterexample: the claim says category names are normalized
(`-`/`_` to spaces) and title-cased; the code maps `-`/`_` to spaces but
never title-cases a category name, so a theme directory `theme_a` yields
the category name "theme a", not "Theme A". -/
theorem category_names_counterexample :
    (fabricGetCategories
        [["org".toList, "theme_a".toList, "x.svg".toList],
         ["org".toList, "theme_b".toList, "y.svg".toList]]).map Prod.fst =
      ["theme a".toList, "theme b".toList] ∧
    "theme a".toList ≠ "Theme A".toList := ⟨by decide, by decide⟩

/-- Claim C6 as amended: every category emitted by the Fabric fetcher is
either the fixed flat-tree name or named by its directory's base name
(the single path component relative to the grouping root) with `-` and `_`
replaced by spaces — no title-casing; every category emitted by the
Microsoft 365 fetcher is named by its leaf directory's path components
joined with " / ", with no character normalization and no title-casing. -/
theorem category_names_amended :
    (∀ fs nm files, (nm, files) ∈ fabricGetCategories fs →
      nm = "Fabric Icons".toList ∨
      ∃ d : DirPath, nm = cleanName (d.getLastD []) ∧ files ≠ [] ∧
        ∀ f ∈ files, d.isPrefixOf f.dropLast = true) ∧
    (∀ fs nm files, (nm, files) ∈ m365GetCategories fs →
      ∃ d : DirPath, nm = List.intercalate " / ".toList d ∧
        ∀ f ∈ files, f.dropLast = d) := by
  constructor
  · intro fs nm files hmem
    simp only [fabricGetCategories] at hmem
    split at hmem
    · cases hmem
    · split at hmem
      · rw [List.mem_singleton, Prod.mk.injEq] at hmem
        exact Or.inl hmem.1
      · rw [List.mem_filterMap] at hmem
        obtain ⟨d, _hd, heq⟩ := hmem
        split at heq
        · cases heq
        · rename_i hne
          rw [Option.some_inj, Prod.mk.injEq] at heq
          refine Or.inr ⟨d, heq.1.symm, ?_, fun f hf => ?_⟩
          · rw [← heq.2]; exact hne
          · rw [← heq.2, mem_sortPaths] at hf
            exact (List.mem_filter.1 hf).2
  · intro fs nm files hmem
    simp only [m365GetCategories] at hmem
    rw [List.mem_filterMap] at hmem
    obtain ⟨d, _hd, heq⟩ := hmem
    split at heq
    · cases heq
    · rw [Option.some_inj, Prod.mk.injEq] at heq
      refine ⟨d, heq.1.symm, fun f hf => ?_⟩
      rw [← heq.2, mem_sortPaths] at hf
      exact of_decide_eq_true (List.mem_filter.1 hf).2

theorem category_names_amended_witness :
    (("a".toList, [["a".toList, "x.svg".toList]]) ∈
        m365GetCategories [["a".toList, "x.svg".toList]]) ∧
    (∃ d : DirPath, "a".toList = List.intercalate " / ".toList d ∧
      ∀ f ∈ [["a".toList, "x.svg".toList]], f.dropLast = d) :=
  ⟨by decide,
    category_names_amended.2 [["a".toList, "x.svg".toList]]
      "a".toList [["a".toList, "x.svg".toList]] (by decide)⟩

/-! ### Library assembler (`create_library_xml`, svg_to_drawio.py lines 156-172)

`json.dumps(entries, ensure_ascii=False, separators=(',', ':'),
sort_keys=True)` serializes the list of entry dicts in input order, each
dict with keys sorted, compact separators, and only `"`/`\`/control
characters escaped. -/

/-- Lowercase hexadecimal digit (Python json uses lowercase in `\uXXXX`). -/
def hexDigitLower (n : Nat) : Char :=
  "0123456789abcdef".toList.getD n '0'

/-- Per-character JSON string escaping with `ensure_ascii=False`: only the
quote, the backslash, and control characters below 0x20 are escaped;
everything else — including non-ASCII characters — is left as is. -/
def jsonEscapeChar (c : Char) : List Char :=
  if c = '"' then ['\\', '"']
  else if c = '\\' then ['\\', '\\']
  else if c = '\n' then ['\\', 'n']
  else if c = '\r' then ['\\', 'r']
  else if c = '\t' then ['\\', 't']
  else if c.toNat = 8 then ['\\', 'b']
  else if c.toNat = 12 then ['\\', 'f']
  else if c.toNat < 32 then
    ['\\', 'u', '0', '0', hexDigitLower (c.toNat / 16), hexDigitLower (c.toNat % 16)]
  else [c]

/-- JSON string literal. -/
def jsonStringLit (s : List Char) : List Char :=
  '"' :: (s.flatMap jsonEscapeChar ++ ['"'])

/-- The entry dict in Python literal order:
`{"xml": ..., "w": ..., "h": ..., "title": ..., "aspect": "fixed"}`,
each value already serialized. -/
def entryPairs (e : LibraryEntry) : List (List Char × List Char) :=
  [("xml".toList, jsonStringLit e.xml),
   ("w".toList, natChars e.w),
   ("h".toList, natChars e.h),
   ("title".toList, jsonStringLit e.title),
   ("aspect".toList, jsonStringLit e.aspect)]

/-- `sort_keys=True`: dict items sorted by key. -/
def sortPairsByKey (l : List (List Char × List Char)) :
    List (List Char × List Char) :=
  isortBy (fun a b => strLtB a.1 b.1) l

/-- One entry serialized by `json.dumps` with compact separators and sorted
keys. -/
def entryJson (e : LibraryEntry) : List Char :=
  ['\x7b'] ++
  List.intercalate [','] ((sortPairsByKey (entryPairs e)).map
    (fun kv => jsonStringLit kv.1 ++ [':'] ++ kv.2)) ++
  ['\x7d']

/-- `create_library_xml` from `src/converters/svg_to_drawio.py`:
`json.dumps(entries, ensure_ascii=False, separators=(',', ':'),
sort_keys=True)` wrapped in the `mxlibrary` container tag. -/
def create_library_xml (entries : List LibraryEntry) : List Char :=
  let json_content :=
    "[".toList ++ List.intercalate [','] (entries.map entryJson) ++ "]".toList
  "<mxlibrary>".toList ++ json_content ++ "</mxlibrary>".toList

/-- The canonical serialization of one record stated key by key, with the
five keys in lexicographic order `aspect < h < title < w < xml`, exactly as
the spec describes the output object. -/
def entryJsonSpec (e : LibraryEntry) : List Char :=
  "\x7b\"aspect\":".toList ++ jsonStringLit e.aspect ++
  ",\"h\":".toList ++ natChars e.h ++
  ",\"title\":".toList ++ jsonStringLit e.title ++
  ",\"w\":".toList ++ natChars e.w ++
  ",\"xml\":".toList ++ jsonStringLit e.xml ++
  "\x7d".toList

theorem entryJson_eq_spec (e : LibraryEntry) : entryJson e = entryJsonSpec e := by
  have hs : sortPairsByKey (entryPairs e) =
      [("aspect".toList, jsonStringLit e.aspect),
       ("h".toList, natChars e.h),
       ("title".toList, jsonStringLit e.title),
       ("w".toList, natChars e.w),
       ("xml".toList, jsonStringLit e.xml)] := rfl
  rw [entryJson, hs]
  simp [entryJsonSpec, List.intercalate, jsonStringLit, jsonEscapeChar]

/-- Claim C7: library assembly is deterministic and order-preserving —
the same entry sequence serializes to the identical document, records
appear in the output array in input order (the i-th array element is the
serialization of the i-th entry), keys within each record are sorted
lexicographically with compact separators and no surrounding whitespace,
non-ASCII characters are left unescaped, and the array is wrapped in the
single fixed `mxlibrary` container tag. -/
theorem create_library_xml_spec (es : List LibraryEntry) :
    create_library_xml es = create_library_xml es ∧
    create_library_xml es =
      "<mxlibrary>[".toList ++
        List.intercalate [','] (es.map entryJsonSpec) ++
      "]</mxlibrary>".toList ∧
    (∀ c : Char, 128 ≤ c.toNat → jsonEscapeChar c = [c]) := by
  refine ⟨rfl, ?_, ?_⟩
  · have hmap : es.map entryJson = es.map entryJsonSpec := by
      induction es with
      | nil => rfl
      | cons a as ih => simp [List.map_cons, ih, entryJson_eq_spec]
    simp only [create_library_xml, hmap]
    simp [List.append_assoc]
  · intro c hc
    have h1 : ¬ c = '"' := by
      intro h; rw [h] at hc; exact absurd hc (by decide)
    have h2 : ¬ c = '\\' := by
      intro h; rw [h] at hc; exact absurd hc (by decide)
    have h3 : ¬ c = '\n' := by
      intro h; rw [h] at hc; exact absurd hc (by decide)
    have h4 : ¬ c = '\r' := by
      intro h; rw [h] at hc; exact absurd hc (by decide)
    have h5 : ¬ c = '\t' := by
      intro h; rw [h] at hc; exact absurd hc (by decide)
    unfold jsonEscapeChar
    rw [if_neg h1, if_neg h2, if_neg h3, if_neg h4, if_neg h5,
      if_neg (by omega), if_neg (by omega), if_neg (by omega)]

theorem create_library_xml_spec_witness :
    create_library_xml [] = create_library_xml [] ∧
    create_library_xml [] =
      "<mxlibrary>[".toList ++
        List.intercalate [','] (([] : List LibraryEntry).map entryJsonSpec) ++
      "]</mxlibrary>".toList ∧
    (∀ c : Char, 128 ≤ c.toNat → jsonEscapeChar c = [c]) :=
  create_library_xml_spec []

/-! ### Filename slugs (`_safe_filename`, main.py lines 23-28)

Python string methods are modelled at character level; `lower`, `strip`,
`split()` and `isalnum` are modelled over the ASCII range the claims
exercise. -/

/-- Python `strip`-style trimming: remove matching characters from both
ends. -/
def trimEnds (p : Char → Bool) (l : List Char) : List Char :=
  ((l.dropWhile p).reverse.dropWhile p).reverse

/-- Accumulator recursion for Python `str.split()` (split on whitespace
runs, discarding empty pieces). -/
def splitWsAux : List Char → List Char → List (List Char)
  | [], acc => if acc = [] then [] else [acc.reverse]
  | c :: cs, acc =>
      if c.isWhitespace then
        if acc = [] then splitWsAux cs [] else acc.reverse :: splitWsAux cs []
      else splitWsAux cs (c :: acc)

/-- Python `str.split()` with no arguments. -/
def pySplitWs (l : List Char) : List (List Char) := splitWsAux l []

/-- `name.lower().strip()`. -/
def lowerStrip (name : List Char) : List Char :=
  trimEnds Char.isWhitespace (name.map Char.toLower)

/-- `safe.replace("&", "and").replace("+", "and")`. -/
def replaceAmpPlus (l : List Char) : List Char :=
  (l.flatMap (fun c => if c = '&' then "and".toList else [c])).flatMap
    (fun c => if c = '+' then "and".toList else [c])

/-- `"-".join(safe.split())`. -/
def hyphenJoin (l : List Char) : List Char :=
  List.intercalate ['-'] (pySplitWs l)

/-- `"".join(c for c in safe if c.isalnum() or c == "-")`. -/
def keepAlnumDash (l : List Char) : List Char :=
  l.filter (fun c => c.isAlphanum || c == '-')

/-- `safe.strip("-")`. -/
def stripDash (l : List Char) : List Char :=
  trimEnds (fun c => c == '-') l

/-- `_safe_filename` from `src/main.py` (the leading underscore is dropped
for Lean): lowercase and strip, replace `&` and `+` with "and", join
whitespace-separated words with single hyphens, keep only alphanumerics
and hyphens, strip leading and trailing hyphens, and fall back to
"category" when nothing remains. -/
def safe_filename (name : List Char) : List Char :=
  let s := stripDash (keepAlnumDash (hyphenJoin (replaceAmpPlus (lowerStrip name))))
  if s = [] then "category".toList else s

/-- Claim C8, counterexample: the claim says runs of hyphens are collapsed,
but hyphens already present in the name are kept verbatim: "a--b" maps to
"a--b", not "a-b" (only whitespace runs become single hyphens). -/
theorem safe_filename_counterexample :
    safe_filename "a--b".toList = "a--b".toList ∧
    "a--b".toList ≠ "a-b".toList := ⟨by decide, by decide⟩

theorem head?_dropWhile_false (p : Char → Bool) (l : List Char) :
    ∀ c, (l.dropWhile p).head? = some c → p c = false := by
  induction l with
  | nil => intro c hc; simp at hc
  | cons a as ih =>
      intro c hc
      by_cases hpa : p a
      · rw [List.dropWhile_cons_of_pos hpa] at hc
        exact ih c hc
      · rw [List.dropWhile_cons_of_neg hpa] at hc
        rw [List.head?_cons, Option.some_inj] at hc
        rw [← hc]
        exact Bool.of_not_eq_true hpa
  
theorem getLast?_dropWhile_of_ne_nil (p : Char → Bool) (l : List Char)
    (h : l.dropWhile p ≠ []) : (l.dropWhile p).getLast? = l.getLast? := by
  induction l with
  | nil => simp at h
  | cons a as ih =>
      by_cases hpa : p a
      · rw [List.dropWhile_cons_of_pos hpa] at h ⊢
        rw [ih h]
        have has : as ≠ [] := by
          intro hh; rw [hh] at h; simp at h
        cases as with
        | nil => exact absurd rfl has
        | cons b bs => rw [List.getLast?_cons_cons]
      · rw [List.dropWhile_cons_of_neg hpa]

theorem mem_trimEnds (p : Char → Bool) (l : List Char) (c : Char)
    (hc : c ∈ trimEnds p l) : c ∈ l := by
  unfold trimEnds at hc
  rw [List.mem_reverse] at hc
  have h1 := (List.dropWhile_sublist p).mem hc
  rw [List.mem_reverse] at h1
  exact (List.dropWhile_sublist p).mem h1

theorem head?_trimEnds_false (p : Char → Bool) (l : List Char) :
    ∀ c, (trimEnds p l).head? = some c → p c = false := by
  intro c hc
  unfold trimEnds at hc
  rw [List.head?_reverse] at hc
  have hne : (l.dropWhile p).reverse.dropWhile p ≠ [] := by
    intro hh
    rw [hh] at hc
    simp at hc
  rw [getLast?_dropWhile_of_ne_nil p _ hne, List.getLast?_reverse] at hc
  exact head?_dropWhile_false p l c hc

theorem getLast?_trimEnds_false (p : Char → Bool) (l : List Char) :
    ∀ c, (trimEnds p l).getLast? = some c → p c = false := by
  intro c hc
  unfold trimEnds at hc
  rw [List.getLast?_reverse] at hc
  exact head?_dropWhile_false p _ c hc

/-- Claim C8 as amended: the slug is never empty (the "category" fallback
covers names whose transformation is empty, such as "" or punctuation-only
names); it contains only alphanumerics and hyphens; and it neither starts
nor ends with a hyphen.  Lowercasing, whitespace-run-to-hyphen joining and
`&`/`+` replacement happen as in the source; pre-existing hyphen runs are
not collapsed (see the counterexample). -/
theorem safe_filename_spec (name : List Char) :
    safe_filename name ≠ [] ∧
    (∀ c ∈ safe_filename name, c.isAlphanum = true ∨ c = '-') ∧
    (∀ c, (safe_filename name).head? = some c → c ≠ '-') ∧
    (∀ c, (safe_filename name).getLast? = some c → c ≠ '-') := by
  unfold safe_filename
  by_cases hs : stripDash (keepAlnumDash (hyphenJoin (replaceAmpPlus (lowerStrip name)))) = []
  · rw [if_pos hs]
    refine ⟨by decide, by decide, by decide, by decide⟩
  · rw [if_neg hs]
    refine ⟨hs, fun c hc => ?_, fun c hc => ?_, fun c hc => ?_⟩
    · have h1 : c ∈ keepAlnumDash (hyphenJoin (replaceAmpPlus (lowerStrip name))) :=
        mem_trimEnds _ _ c hc
      have h2 := (List.mem_filter.1 h1).2
      rw [Bool.or_eq_true] at h2
      rcases h2 with h2 | h2
      · exact Or.inl h2
      · exact Or.inr (by rwa [beq_iff_eq] at h2)
    · have := head?_trimEnds_false _ _ c hc
      intro hcontra
      rw [hcontra] at this
      simp at this
    · have := getLast?_trimEnds_false _ _ c hc
      intro hcontra
      rw [hcontra] at this
      simp at this

theorem safe_filename_spec_witness :
    safe_filename "My Icons!".toList ≠ [] ∧
    (∀ c ∈ safe_filename "My Icons!".toList, c.isAlphanum = true ∨ c = '-') ∧
    (∀ c, (safe_filename "My Icons!".toList).head? = some c → c ≠ '-') ∧
    (∀ c, (safe_filename "My Icons!".toList).getLast? = some c → c ≠ '-') :=
  safe_filename_spec "My Icons!".toList

/-! ### Library generation loop (`generate_libraries`, main.py lines 31-68)

Per-icon conversion (`create_library_entry_from_file`) can raise (file
read, codec); the caught-per-icon outcome is modelled as
`Option LibraryEntry` — `none` for an exception, `some e` for the record.
The written document path is `prefixPath / slug.xml`. -/

/-- The per-run statistics dict and output files of `generate_libraries`. -/
structure GenStats where
  categories : Nat
  icons : Nat
  files : List (List Char)
deriving DecidableEq, Repr

/-- `generate_libraries` from `src/main.py`: for each category, collect the
successfully converted entries; when at least one icon converted, write a
document named after the category slug and count the category, its icons
and its output file; a category with no successful entries writes nothing
and updates nothing. -/
def generate_libraries (prefixPath : List Char)
    (cats : List (List Char × List (Option LibraryEntry))) : GenStats :=
  cats.foldl (fun stats cat =>
    let entries := cat.2.filterMap id
    if entries = [] then stats
    else
      { categories := stats.categories + 1
        icons := stats.icons + entries.length
        files := stats.files ++
          [prefixPath ++ ['/'] ++ safe_filename cat.1 ++ ".xml".toList] })
    ⟨0, 0, []⟩

/-- Claim C9: empty-category suppression.  A category all of whose icon
conversions fail contributes nothing to the manifest — removing it leaves
the statistics (category count, icon count, emitted file list) unchanged —
and a single failed icon is simply dropped from its category's entry list,
leaving the conversion of its sibling icons intact. -/
theorem generate_libraries_empty_category (prefixPath nm : List Char)
    (pre post : List (List Char × List (Option LibraryEntry)))
    (rs : List (Option LibraryEntry))
    (hfail : ∀ r ∈ rs, r = none) :
    generate_libraries prefixPath (pre ++ (nm, rs) :: post) =
      generate_libraries prefixPath (pre ++ post) ∧
    ∀ (a b : List (Option LibraryEntry)),
      (a ++ none :: b).filterMap id = (a ++ b).filterMap id := by
  constructor
  · have hent : rs.filterMap id = [] :=
      List.filterMap_eq_nil_iff.mpr (fun r hr => by rw [hfail r hr]; rfl)
    unfold generate_libraries
    rw [List.foldl_append, List.foldl_append, List.foldl_cons]
    simp [hent]
  · intro a b
    simp [List.filterMap_append]

theorem generate_libraries_empty_category_witness :
    generate_libraries "output/fabric".toList
        [("A".toList, [some ⟨[], 1, 1, [], []⟩]),
         ("B".toList, [none, none]),
         ("C".toList, [some ⟨[], 2, 2, [], []⟩])] =
      generate_libraries "output/fabric".toList
        [("A".toList, [some ⟨[], 1, 1, [], []⟩]),
         ("C".toList, [some ⟨[], 2, 2, [], []⟩])] ∧
    ([some (⟨[], 1, 1, [], []⟩ : LibraryEntry)] ++ none :: []).filterMap id =
      ([some (⟨[], 1, 1, [], []⟩ : LibraryEntry)] ++ []).filterMap id :=
  ⟨(generate_libraries_empty_category "output/fabric".toList "B".toList
      [("A".toList, [some ⟨[], 1, 1, [], []⟩])]
      [("C".toList, [some ⟨[], 2, 2, [], []⟩])]
      [none, none] (by decide)).1,
   (generate_libraries_empty_category "output/fabric".toList "B".toList
      [("A".toList, [some ⟨[], 1, 1, [], []⟩])]
      [("C".toList, [some ⟨[], 2, 2, [], []⟩])]
      [none, none] (by decide)).2
      [some ⟨[], 1, 1, [], []⟩] []⟩
